import Mathlib

/-!
# Verification of the Flask JWKS server (`src/app.py`)

Shallow embedding of the JWKS server's data model and operations.

* Timestamps (`datetime.now(UTC)` values) are modelled as `Int` epoch seconds;
  the `timedelta` constants become `3600` (1 hour) and `300` (5 minutes).
* The module-level dictionary `keys` (kid -> record) is modelled as an
  association list `KeyStore` in insertion order, which is exactly the
  iteration and mutation order of a Python `dict`.
* RSA key material is carried symbolically: the public numbers `n`, `e` as
  `Nat` and the private component as a `Nat` tag `privateD` (its exact bytes
  never surface in the observable behaviour being verified; only "same
  material / different material" matters).
* `base64.urlsafe_b64encode(x).rstrip(b'=')` and `int.to_bytes`/`bit_length`
  are embedded bit-exactly on byte lists.
-/

set_option autoImplicit false

namespace JWKSServer

/-! ## Base64url encoding, `base64url_encode` in `src/app.py`

Python: `bytes_value = value.to_bytes((value.bit_length() + 7) // 8, 'big')`
then `base64.urlsafe_b64encode(bytes_value).rstrip(b'=').decode('utf-8')`. -/

/-- The URL-safe base64 alphabet, index to character:
`A`-`Z`, `a`-`z`, `0`-`9`, `-`, `_`. -/
def sextetToChar (i : Nat) : Char :=
  if i < 26 then Char.ofNat (65 + i)
  else if i < 52 then Char.ofNat (97 + (i - 26))
  else if i < 62 then Char.ofNat (48 + (i - 52))
  else if i = 62 then '-'
  else '_'

/-- Inverse alphabet lookup: character to sextet value, `none` for characters
outside the URL-safe base64 alphabet. -/
def charToSextet (c : Char) : Option Nat :=
  if 65 ≤ c.toNat ∧ c.toNat ≤ 90 then some (c.toNat - 65)
  else if 97 ≤ c.toNat ∧ c.toNat ≤ 122 then some (26 + (c.toNat - 97))
  else if 48 ≤ c.toNat ∧ c.toNat ≤ 57 then some (52 + (c.toNat - 48))
  else if c = '-' then some 62
  else if c = '_' then some 63
  else none

/-- Python `base64.urlsafe_b64encode` followed by `rstrip(b'=')`: bytes (big-endian
bit stream) to base64url characters, with the `=` padding already stripped.
A final group of 1 byte yields 2 characters, of 2 bytes yields 3 characters. -/
def b64encode : List Nat → List Char
  | [] => []
  | [b0] =>
      [sextetToChar (b0 / 4), sextetToChar (b0 % 4 * 16)]
  | [b0, b1] =>
      [sextetToChar (b0 / 4), sextetToChar (b0 % 4 * 16 + b1 / 16),
       sextetToChar (b1 % 16 * 4)]
  | b0 :: b1 :: b2 :: rest =>
      sextetToChar (b0 / 4) :: sextetToChar (b0 % 4 * 16 + b1 / 16) ::
      sextetToChar (b1 % 16 * 4 + b2 / 64) :: sextetToChar (b2 % 64) ::
      b64encode rest

/-- Unpadded base64url decoding: the inverse direction of `b64encode`.
Returns `none` on characters outside the alphabet or an impossible length. -/
def b64decode : List Char → Option (List Nat)
  | [] => some []
  | [c0, c1] =>
      (charToSextet c0).bind fun s0 =>
      (charToSextet c1).map fun s1 => [s0 * 4 + s1 / 16]
  | [c0, c1, c2] =>
      (charToSextet c0).bind fun s0 =>
      (charToSextet c1).bind fun s1 =>
      (charToSextet c2).map fun s2 =>
        [s0 * 4 + s1 / 16, s1 % 16 * 16 + s2 / 4]
  | c0 :: c1 :: c2 :: c3 :: rest =>
      (charToSextet c0).bind fun s0 =>
      (charToSextet c1).bind fun s1 =>
      (charToSextet c2).bind fun s2 =>
      (charToSextet c3).bind fun s3 =>
      (b64decode rest).map fun tl =>
        (s0 * 4 + s1 / 16) :: (s1 % 16 * 16 + s2 / 4) :: (s2 % 4 * 64 + s3) :: tl
  | [_] => none

/-- Fuel-driven bit length; with `n ≤ fuel` this is Python's
`int.bit_length()` (0 for 0, otherwise position of the highest set bit). -/
def bitLenAux : Nat → Nat → Nat
  | 0, _ => 0
  | fuel + 1, n => if n = 0 then 0 else bitLenAux fuel (n / 2) + 1

/-- Python `value.bit_length()`. -/
def bitLen (n : Nat) : Nat := bitLenAux n n

/-- Python `n.to_bytes(k, 'big')`: the low `k` bytes of `n`, most significant first. -/
def natToBEBytes : Nat → Nat → List Nat
  | 0, _ => []
  | k + 1, n => natToBEBytes k (n / 256) ++ [n % 256]

/-- Python `value.to_bytes((value.bit_length() + 7) // 8, 'big')`: the minimal
big-endian byte representation (empty for 0). -/
def intToBEBytes (n : Nat) : List Nat := natToBEBytes ((bitLen n + 7) / 8) n

/-- Function `base64url_encode` from `src/app.py`, end to end on an integer. -/
def base64urlEncode (n : Nat) : String := String.mk (b64encode (intToBEBytes n))

/-- Big-endian bytes back to the integer they represent. -/
def bytesToNat (bs : List Nat) : Nat := bs.foldl (fun acc b => acc * 256 + b) 0

/-- Decode a base64url string and interpret the bytes as a big-endian
integer, as a relying party recovers `n`/`e` from a published JWK. -/
def base64urlDecodeNat (s : String) : Option Nat :=
  (b64decode s.data).map bytesToNat

/-! ## Data model: the `keys` dictionary -/

/-- One value of the `keys` dictionary: the RSA pair plus its expiry.
`publicN`, `publicE` are `public_key.public_numbers().n` / `.e`; `privateD`
tags the private material (`private_key`). `expiry` is the stored
`'expiry'` timestamp in epoch seconds. -/
structure KeyEntry where
  publicN : Nat
  publicE : Nat
  privateD : Nat
  expiry : Int
deriving DecidableEq, Repr

/-- The module-level `keys` dictionary, in Python dict (insertion) order. -/
abbrev KeyStore := List (String × KeyEntry)

/-- Read access `keys[kid]`: first binding of `kid` in the store. -/
def storeLookup (store : KeyStore) (kid : String) : Option KeyEntry :=
  match store with
  | [] => none
  | (k, v) :: rest => if k = kid then some v else storeLookup rest kid

/-- Write access `keys[kid] = v`, Python dict semantics: replace in place if
the key exists (keeping its position), otherwise append at the end. -/
def storeInsert (store : KeyStore) (kid : String) (v : KeyEntry) : KeyStore :=
  match store with
  | [] => [(kid, v)]
  | (k, w) :: rest =>
      if k = kid then (k, v) :: rest else (k, w) :: storeInsert rest kid v

/-- The kids currently present in the store. -/
def storeKids (store : KeyStore) : List String := store.map Prod.fst

/-! ## Key Pair Factory: `generate_key` in `src/app.py`

The freshly generated RSA pair and the freshly drawn `uuid4` string are
nondeterministic inputs of the real function; the embedding takes them as
parameters (`fresh`, `freshKid`) together with the clock value `now`. -/

/-- The nondeterministic inputs of one `generate_key` call: the RSA material
produced by `rsa.generate_private_key` and the `str(uuid.uuid4())` kid. -/
structure FreshMaterial where
  publicN : Nat
  publicE : Nat
  privateD : Nat
deriving DecidableEq, Repr

/-- Function `generate_key(expired)` from `src/app.py`: expiry is `now + 1 hour`,
or `now - 5 minutes` when `expired` is true; the entry is stored under the
fresh kid by plain dict assignment, and the kid is returned. -/
def generate_key (store : KeyStore) (fresh : FreshMaterial) (freshKid : String)
    (expired : Bool) (now : Int) : String × KeyStore :=
  let expiry : Int := if expired then now - 300 else now + 3600
  (freshKid,
   storeInsert store freshKid
     ⟨fresh.publicN, fresh.publicE, fresh.privateD, expiry⟩)

/-! ## Discovery endpoint: `jwks_endpoint` in `src/app.py` -/

/-- One entry of the published `keys` array. -/
structure JWK where
  kty : String
  use : String
  kid : String
  n : String
  e : String
  alg : String
deriving DecidableEq, Repr

/-- The JWK rendered for one stored key. -/
def encodeJWK (kid : String) (k : KeyEntry) : JWK :=
  { kty := "RSA", use := "sig", kid := kid,
    n := base64urlEncode k.publicN, e := base64urlEncode k.publicE,
    alg := "RS256" }

/-- The deletion loop of `jwks_endpoint`: collect every kid with
`key['expiry'] < now` and delete it; the remaining bindings keep their
order. -/
def purgeExpired (store : KeyStore) (now : Int) : KeyStore :=
  match store with
  | [] => []
  | (k, v) :: rest =>
      if v.expiry < now then purgeExpired rest now
      else (k, v) :: purgeExpired rest now

/-- Handler for `GET /.well-known/jwks.json`: purge expired keys, then render every
remaining key. Returns the post-request store, the HTTP status and the
`keys` array of the JSON body. -/
def jwks_endpoint (store : KeyStore) (now : Int) :
    KeyStore × Nat × List JWK :=
  let purged := purgeExpired store now
  (purged, 200, purged.map (fun p => encodeJWK p.1 p.2))

/-! ## Issuance endpoint: `auth_endpoint` in `src/app.py` -/

/-- A JSON claim value (the payload only holds strings and timestamps). -/
inductive JVal
  | str (s : String)
  | int (i : Int)
deriving DecidableEq, Repr

/-- An issued JWT, decoded without signature verification: the header
fields the code sets, and the payload claims in construction order. -/
structure Token where
  headerAlg : String
  headerKid : String
  payload : List (String × JVal)
deriving DecidableEq, Repr

/-- Read an integer claim out of a token's payload. -/
def payloadInt (t : Token) (name : String) : Option Int :=
  match t.payload.lookup name with
  | some (JVal.int i) => some i
  | _ => none

/-- Read a string claim out of a token's payload. -/
def payloadStr (t : Token) (name : String) : Option String :=
  match t.payload.lookup name with
  | some (JVal.str s) => some s
  | _ => none

/-- Python `next((k for k, v in keys.items() if v['expiry'] < datetime.now(UTC)), None)`:
the first kid in dict order whose key is already expired. -/
def findExpired (store : KeyStore) (now : Int) : Option String :=
  match store with
  | [] => none
  | (k, v) :: rest => if v.expiry < now then some k else findExpired rest now

/-- The key-selection lines of `auth_endpoint`:
`kid = next(...) if expired else None` followed by
`if not kid: kid = generate_key(expired=expired)`. The Python truthiness
guard `if not kid:` also treats an empty-string kid as missing, which the
`k = ""` test mirrors. Returns the signing kid and the store after the
possible insertion. -/
def pickSigningKey (store : KeyStore) (expiredParam : Bool)
    (fresh : FreshMaterial) (freshKid : String) (now : Int) :
    String × KeyStore :=
  match (if expiredParam then findExpired store now else none) with
  | some k =>
      if k = "" then generate_key store fresh freshKid expiredParam now
      else (k, store)
  | none => generate_key store fresh freshKid expiredParam now

/-- Handler for `POST /auth`. `expiredParam` is the Python expression
`'expired' in request.args` (presence of the query parameter, any value).
`fresh`/`freshKid` are the nondeterministic inputs consumed if and only if
the request generates a key. Returns the post-request store, the HTTP
status and the issued token (`jwt.encode` succeeds on the well-formed key
material the server itself generated, so the `except` branch is not
reachable in the model). -/
def auth_endpoint (store : KeyStore) (expiredParam : Bool)
    (fresh : FreshMaterial) (freshKid : String) (now : Int) :
    KeyStore × Nat × Token :=
  let picked := pickSigningKey store expiredParam fresh freshKid now
  let expTime : Int := if expiredParam then now - 300 else now + 300
  (picked.2, 201,
   { headerAlg := "RS256", headerKid := picked.1,
     payload := [("sub", JVal.str "example_user"),
                 ("iat", JVal.int now),
                 ("exp", JVal.int expTime)] })

/-! ## HTTP method dispatch

The decorators in `src/app.py` route, per path, the methods they name.
Flask's `add_url_rule` additionally (documented automatic behaviour)
serves `HEAD` through a route that declares `GET`, and answers `OPTIONS`
on every route itself with an automatic empty 200 response, never
reaching a handler. The method universe is the set of methods named in
the source plus the automatic `OPTIONS`. -/

inductive Method
  | GET | POST | PUT | DELETE | PATCH | HEAD | OPTIONS
deriving DecidableEq, Repr

/-- A response body: a JWKS document, a token envelope, an error envelope
`{"error": msg}`, or the empty body of Flask's automatic `OPTIONS`
response (which carries only an `Allow` header). -/
inductive RespBody
  | keysDoc (ks : List JWK)
  | tokenDoc (t : Token)
  | err (msg : String)
  | autoOptions
deriving DecidableEq, Repr

/-- Dispatch on `/.well-known/jwks.json`: `GET` runs `jwks_endpoint`;
`HEAD` also runs it (Flask auto-adds `HEAD` to the `GET` route, the
response body is then stripped at the transport layer but the status and
handler are those of `GET`); `OPTIONS` gets Flask's automatic empty 200
response without touching the store; `PUT`, `POST`, `DELETE`, `PATCH`
hit `jwks_invalid_methods`, returning 405. -/
def dispatchDiscovery (store : KeyStore) (now : Int) (m : Method) :
    KeyStore × Nat × RespBody :=
  match m with
  | Method.GET =>
      let r := jwks_endpoint store now
      (r.1, r.2.1, RespBody.keysDoc r.2.2)
  | Method.HEAD =>
      let r := jwks_endpoint store now
      (r.1, r.2.1, RespBody.keysDoc r.2.2)
  | Method.OPTIONS => (store, 200, RespBody.autoOptions)
  | _ => (store, 405, RespBody.err "Method Not Allowed")

/-- Dispatch on `/auth`: `POST` runs `auth_endpoint`; `OPTIONS` gets
Flask's automatic empty 200 response without touching the store; `GET`,
`PUT`, `DELETE`, `PATCH`, `HEAD` hit `auth_invalid_methods`, returning
405. -/
def dispatchAuth (store : KeyStore) (expiredParam : Bool)
    (fresh : FreshMaterial) (freshKid : String) (now : Int) (m : Method) :
    KeyStore × Nat × RespBody :=
  match m with
  | Method.POST =>
      let r := auth_endpoint store expiredParam fresh freshKid now
      (r.1, r.2.1, RespBody.tokenDoc r.2.2)
  | Method.OPTIONS => (store, 200, RespBody.autoOptions)
  | _ => (store, 405, RespBody.err "Method Not Allowed")

/-! ## Lemmas about the base64url encoding -/

/-- Decoding inverts the alphabet map on every sextet value. -/
theorem charToSextet_sextetToChar : ∀ i : Nat, i < 64 → charToSextet (sextetToChar i) = some i := by
  decide

/-- Every character the alphabet map produces is in the URL-safe alphabet
(hence in particular is not the padding character `=`). -/
theorem sextetToChar_mem_alphabet : ∀ i : Nat, i < 64 → (charToSextet (sextetToChar i)).isSome := by
  decide

/-- The padding character is not in the URL-safe alphabet. -/
theorem charToSextet_eq_char : charToSextet '=' = none := by decide

/-- Characters produced by `b64encode` on genuine bytes are alphabet
characters: each is `sextetToChar` of some sextet value. -/
theorem mem_b64encode_shape : ∀ bs : List Nat, (∀ b ∈ bs, b < 256) →
    ∀ c ∈ b64encode bs, ∃ i, i < 64 ∧ c = sextetToChar i
  | [], _ => by simp [b64encode]
  | [b0], h => by
      have hb0 : b0 < 256 := h b0 (by simp)
      intro c hc
      simp only [b64encode, List.mem_cons, List.not_mem_nil, or_false] at hc
      rcases hc with rfl | rfl
      · exact ⟨b0 / 4, by omega, rfl⟩
      · exact ⟨b0 % 4 * 16, by omega, rfl⟩
  | [b0, b1], h => by
      have hb0 : b0 < 256 := h b0 (by simp)
      have hb1 : b1 < 256 := h b1 (by simp)
      intro c hc
      simp only [b64encode, List.mem_cons, List.not_mem_nil, or_false] at hc
      rcases hc with rfl | rfl | rfl
      · exact ⟨b0 / 4, by omega, rfl⟩
      · exact ⟨b0 % 4 * 16 + b1 / 16, by omega, rfl⟩
      · exact ⟨b1 % 16 * 4, by omega, rfl⟩
  | b0 :: b1 :: b2 :: rest, h => by
      have hb0 : b0 < 256 := h b0 (by simp)
      have hb1 : b1 < 256 := h b1 (by simp)
      have hb2 : b2 < 256 := h b2 (by simp)
      have ih := mem_b64encode_shape rest (fun b hb => h b (by simp [hb]))
      intro c hc
      simp only [b64encode, List.mem_cons] at hc
      rcases hc with rfl | rfl | rfl | rfl | hc
      · exact ⟨b0 / 4, by omega, rfl⟩
      · exact ⟨b0 % 4 * 16 + b1 / 16, by omega, rfl⟩
      · exact ⟨b1 % 16 * 4 + b2 / 64, by omega, rfl⟩
      · exact ⟨b2 % 64, by omega, rfl⟩
      · exact ih c hc

/-- Round trip at the byte-list level: decoding an unpadded base64url
encoding of a byte list recovers the byte list. -/
theorem b64decode_b64encode : ∀ bs : List Nat, (∀ b ∈ bs, b < 256) →
    b64decode (b64encode bs) = some bs
  | [], _ => rfl
  | [b0], h => by
      have hb0 : b0 < 256 := h b0 (by simp)
      simp only [b64encode, b64decode]
      rw [charToSextet_sextetToChar _ (by omega : b0 / 4 < 64),
          charToSextet_sextetToChar _ (by omega : b0 % 4 * 16 < 64)]
      simp only [Option.some_bind', Option.map_some', Option.some.injEq,
        List.cons.injEq, and_true]
      omega
  | [b0, b1], h => by
      have hb0 : b0 < 256 := h b0 (by simp)
      have hb1 : b1 < 256 := h b1 (by simp)
      simp only [b64encode, b64decode]
      rw [charToSextet_sextetToChar _ (by omega : b0 / 4 < 64),
          charToSextet_sextetToChar _ (by omega : b0 % 4 * 16 + b1 / 16 < 64),
          charToSextet_sextetToChar _ (by omega : b1 % 16 * 4 < 64)]
      simp only [Option.some_bind', Option.map_some', Option.some.injEq,
        List.cons.injEq, and_true]
      omega
  | b0 :: b1 :: b2 :: rest, h => by
      have hb0 : b0 < 256 := h b0 (by simp)
      have hb1 : b1 < 256 := h b1 (by simp)
      have hb2 : b2 < 256 := h b2 (by simp)
      have ih := b64decode_b64encode rest (fun b hb => h b (by simp [hb]))
      simp only [b64encode, b64decode]
      rw [charToSextet_sextetToChar _ (by omega : b0 / 4 < 64),
          charToSextet_sextetToChar _ (by omega : b0 % 4 * 16 + b1 / 16 < 64),
          charToSextet_sextetToChar _ (by omega : b1 % 16 * 4 + b2 / 64 < 64),
          charToSextet_sextetToChar _ (by omega : b2 % 64 < 64), ih]
      simp only [Option.some_bind', Option.map_some', Option.some.injEq,
        List.cons.injEq, and_true]
      refine ⟨by omega, by omega, by omega⟩

/-! ## Lemmas about the byte representation of integers -/

theorem bitLenAux_zero (fuel : Nat) : bitLenAux fuel 0 = 0 := by
  cases fuel <;> simp [bitLenAux]

/-- With enough fuel, `bitLenAux` bounds its input: `n < 2 ^ bitLen n`. -/
theorem lt_two_pow_bitLenAux : ∀ fuel n : Nat, n ≤ fuel → n < 2 ^ bitLenAux fuel n := by
  intro fuel
  induction fuel with
  | zero =>
      intro n h
      have hn : n = 0 := by omega
      subst hn
      simp [bitLenAux]
  | succ f ih =>
      intro n h
      by_cases hn : n = 0
      · subst hn; simp [bitLenAux]
      · simp only [bitLenAux, if_neg hn]
        have h2 : n / 2 ≤ f := by omega
        have hlt := ih (n / 2) h2
        rw [pow_succ]
        set X := 2 ^ bitLenAux f (n / 2) with hX
        omega

/-- With enough fuel, a positive input reaches at least its bit length's
lower bound: `2 ^ (bitLen n - 1) ≤ n`. -/
theorem two_pow_pred_bitLenAux_le : ∀ fuel n : Nat, n ≤ fuel → 0 < n →
    2 ^ (bitLenAux fuel n - 1) ≤ n := by
  intro fuel
  induction fuel with
  | zero => intro n h h0; omega
  | succ f ih =>
      intro n h h0
      have hn : n ≠ 0 := by omega
      simp only [bitLenAux, if_neg hn, Nat.add_sub_cancel]
      by_cases h2 : n / 2 = 0
      · rw [h2, bitLenAux_zero]
        simpa using h0
      · have hle : n / 2 ≤ f := by omega
        have hlow := ih (n / 2) hle (by omega)
        have h1 : 1 ≤ bitLenAux f (n / 2) := by
          cases f with
          | zero => omega
          | succ g => simp only [bitLenAux, if_neg h2]; omega
        rw [show bitLenAux f (n / 2) = bitLenAux f (n / 2) - 1 + 1 from by omega,
            pow_succ]
        set X := 2 ^ (bitLenAux f (n / 2) - 1) with hX
        omega

/-- Every integer is below `256 ^` its Python byte length. -/
theorem lt_256_pow_byteLen (n : Nat) : n < 256 ^ ((bitLen n + 7) / 8) := by
  have h1 : n < 2 ^ bitLen n := lt_two_pow_bitLenAux n n le_rfl
  have h2 : bitLen n ≤ 8 * ((bitLen n + 7) / 8) := by omega
  calc n < 2 ^ bitLen n := h1
    _ ≤ 2 ^ (8 * ((bitLen n + 7) / 8)) := Nat.pow_le_pow_right (by omega) h2
    _ = 256 ^ ((bitLen n + 7) / 8) := by rw [pow_mul]; norm_num

theorem length_natToBEBytes : ∀ (k n : Nat), (natToBEBytes k n).length = k := by
  intro k
  induction k with
  | zero => intro n; rfl
  | succ k ih => intro n; simp [natToBEBytes, ih]

/-- Every byte emitted by `natToBEBytes` is a genuine byte. -/
theorem mem_natToBEBytes_lt : ∀ (k n b : Nat), b ∈ natToBEBytes k n → b < 256 := by
  intro k
  induction k with
  | zero => intro n b hb; simp [natToBEBytes] at hb
  | succ k ih =>
      intro n b hb
      simp only [natToBEBytes, List.mem_append, List.mem_cons,
        List.not_mem_nil, or_false] at hb
      rcases hb with hb | rfl
      · exact ih _ b hb
      · omega

/-- Folding big-endian bytes back, with any accumulator. -/
theorem foldl_natToBEBytes : ∀ (k n acc : Nat), n < 256 ^ k →
    List.foldl (fun a b => a * 256 + b) acc (natToBEBytes k n) = acc * 256 ^ k + n := by
  intro k
  induction k with
  | zero =>
      intro n acc h
      simp only [natToBEBytes, List.foldl_nil, pow_zero]
      omega
  | succ k ih =>
      intro n acc h
      simp only [natToBEBytes, List.foldl_append, List.foldl_cons, List.foldl_nil]
      have hdiv : n / 256 < 256 ^ k := by
        rw [Nat.div_lt_iff_lt_mul (by omega)]
        calc n < 256 ^ (k + 1) := h
          _ = 256 ^ k * 256 := by rw [pow_succ]
      rw [ih (n / 256) acc hdiv]
      have hmod : n / 256 * 256 + n % 256 = n := by omega
      calc (acc * 256 ^ k + n / 256) * 256 + n % 256
          = acc * (256 ^ k * 256) + (n / 256 * 256 + n % 256) := by ring
        _ = acc * 256 ^ (k + 1) + n := by rw [hmod, pow_succ]

/-- Every byte of the minimal representation is a genuine byte. -/
theorem mem_intToBEBytes_lt (n : Nat) : ∀ b ∈ intToBEBytes n, b < 256 :=
  fun b hb => mem_natToBEBytes_lt _ _ b hb

/-- Recovering the integer from its minimal big-endian byte string. -/
theorem bytesToNat_intToBEBytes (n : Nat) : bytesToNat (intToBEBytes n) = n := by
  unfold bytesToNat intToBEBytes
  rw [foldl_natToBEBytes _ n 0 (lt_256_pow_byteLen n)]
  simp

/-- The head byte of a fixed-width big-endian representation. -/
theorem head_natToBEBytes : ∀ (k n : Nat), n < 256 ^ (k + 1) →
    (natToBEBytes (k + 1) n).head? = some (n / 256 ^ k) := by
  intro k
  induction k with
  | zero =>
      intro n h
      simp only [natToBEBytes, List.nil_append, List.head?_cons, pow_zero,
        Nat.div_one, Option.some.injEq]
      omega
  | succ k ih =>
      intro n h
      have hdiv : n / 256 < 256 ^ (k + 1) := by
        rw [Nat.div_lt_iff_lt_mul (by omega)]
        calc n < 256 ^ (k + 2) := h
          _ = 256 ^ (k + 1) * 256 := by rw [pow_succ]
      have hne : natToBEBytes (k + 1) (n / 256) ≠ [] := by
        intro hcon
        have := length_natToBEBytes (k + 1) (n / 256)
        rw [hcon] at this
        simp at this
      rw [show natToBEBytes (k + 1 + 1) n
            = natToBEBytes (k + 1) (n / 256) ++ [n % 256] from rfl]
      rw [List.head?_append_of_ne_nil _ hne, ih (n / 256) hdiv]
      congr 1
      rw [Nat.div_div_eq_div_mul, ← pow_succ']

/-- A positive integer's minimal big-endian representation starts with a
nonzero byte. -/
theorem head_intToBEBytes_ne_zero (n : Nat) (hn : 0 < n) :
    ∀ b, (intToBEBytes n).head? = some b → b ≠ 0 := by
  intro b hb
  have hbit1 : 1 ≤ bitLen n := by
    unfold bitLen
    cases hk : n with
    | zero => omega
    | succ m =>
        simp only [bitLenAux, if_neg (by omega : ¬ m + 1 = 0)]
        omega
  have hklen : 1 ≤ (bitLen n + 7) / 8 := by omega
  have hup : n < 256 ^ ((bitLen n + 7) / 8 - 1 + 1) := by
    rw [show (bitLen n + 7) / 8 - 1 + 1 = (bitLen n + 7) / 8 from by omega]
    exact lt_256_pow_byteLen n
  have hhead := head_natToBEBytes ((bitLen n + 7) / 8 - 1) n hup
  unfold intToBEBytes at hb
  rw [show (bitLen n + 7) / 8 = (bitLen n + 7) / 8 - 1 + 1 from by omega] at hb
  rw [hhead] at hb
  have hb' : b = n / 256 ^ ((bitLen n + 7) / 8 - 1) := by
    injection hb with h
    omega
  have hlow : 2 ^ (bitLen n - 1) ≤ n := two_pow_pred_bitLenAux_le n n le_rfl hn
  have hple : 256 ^ ((bitLen n + 7) / 8 - 1) ≤ n := by
    calc 256 ^ ((bitLen n + 7) / 8 - 1)
        = 2 ^ (8 * ((bitLen n + 7) / 8 - 1)) := by rw [pow_mul]; norm_num
      _ ≤ 2 ^ (bitLen n - 1) := Nat.pow_le_pow_right (by omega) (by omega)
      _ ≤ n := hlow
  have hpos : 0 < n / 256 ^ ((bitLen n + 7) / 8 - 1) :=
    Nat.div_pos hple (Nat.pos_pow_of_pos _ (by omega))
  omega

/-- Main encoding round trip: decoding `base64url_encode value` as a
big-endian integer yields `value` back, for every natural number. -/
theorem base64urlDecodeNat_base64urlEncode (n : Nat) :
    base64urlDecodeNat (base64urlEncode n) = some n := by
  unfold base64urlDecodeNat base64urlEncode
  rw [show (String.mk (b64encode (intToBEBytes n))).data
        = b64encode (intToBEBytes n) from rfl]
  rw [b64decode_b64encode _ (mem_intToBEBytes_lt n)]
  rw [Option.map_some', bytesToNat_intToBEBytes]

/-- No character of `base64url_encode value` is the padding character and
every character is in the URL-safe alphabet. -/
theorem base64urlEncode_chars (n : Nat) :
    ∀ c ∈ (base64urlEncode n).data, (charToSextet c).isSome ∧ c ≠ '=' := by
  intro c hc
  rw [show (base64urlEncode n).data = b64encode (intToBEBytes n) from rfl] at hc
  obtain ⟨i, hi, rfl⟩ :=
    mem_b64encode_shape (intToBEBytes n) (mem_intToBEBytes_lt n) c hc
  refine ⟨sextetToChar_mem_alphabet i hi, ?_⟩
  intro hcon
  have := charToSextet_sextetToChar i hi
  rw [hcon, charToSextet_eq_char] at this
  exact Option.noConfusion this

/-! ## Lemmas about the key store -/

/-- Membership after the purge loop: exactly the not-yet-expired bindings
survive, in order. -/
theorem mem_purgeExpired (now : Int) : ∀ (store : KeyStore) (p : String × KeyEntry),
    p ∈ purgeExpired store now ↔ p ∈ store ∧ ¬ p.2.expiry < now := by
  intro store
  induction store with
  | nil => intro p; simp [purgeExpired]
  | cons hd tl ih =>
      obtain ⟨k, v⟩ := hd
      intro p
      by_cases h : v.expiry < now
      · simp only [purgeExpired, if_pos h, ih p, List.mem_cons]
        constructor
        · rintro ⟨hp, hexp⟩; exact ⟨Or.inr hp, hexp⟩
        · rintro ⟨hor, hexp⟩
          rcases hor with rfl | hp
          · exact absurd h hexp
          · exact ⟨hp, hexp⟩
      · simp only [purgeExpired, if_neg h, List.mem_cons, ih p]
        constructor
        · rintro (rfl | ⟨hp, hexp⟩)
          · exact ⟨Or.inl rfl, h⟩
          · exact ⟨Or.inr hp, hexp⟩
        · rintro ⟨hor, hexp⟩
          rcases hor with rfl | hp
          · exact Or.inl rfl
          · exact Or.inr ⟨hp, hexp⟩

/-- If every stored key is expired, the purge empties the store. -/
theorem purgeExpired_eq_nil (now : Int) : ∀ store : KeyStore,
    (∀ p ∈ store, p.2.expiry < now) → purgeExpired store now = [] := by
  intro store
  induction store with
  | nil => intro _; rfl
  | cons hd tl ih =>
      obtain ⟨k, v⟩ := hd
      intro h
      have hv : v.expiry < now := h (k, v) (by simp)
      simp only [purgeExpired, if_pos hv]
      exact ih (fun p hp => h p (by simp [hp]))

/-- Dict assignment stores the assigned value under the assigned key. -/
theorem storeLookup_storeInsert_self : ∀ (store : KeyStore) (kid : String) (v : KeyEntry),
    storeLookup (storeInsert store kid v) kid = some v := by
  intro store
  induction store with
  | nil => intro kid v; simp [storeInsert, storeLookup]
  | cons hd tl ih =>
      obtain ⟨k, w⟩ := hd
      intro kid v
      by_cases h : k = kid
      · simp [storeInsert, storeLookup, h]
      · simp only [storeInsert, if_neg h, storeLookup, if_neg h]
        exact ih kid v

/-- A successful lookup means the kid is present. -/
theorem mem_storeKids_of_lookup : ∀ (store : KeyStore) (kid : String) (v : KeyEntry),
    storeLookup store kid = some v → kid ∈ storeKids store := by
  intro store
  induction store with
  | nil => intro kid v h; simp [storeLookup] at h
  | cons hd tl ih =>
      obtain ⟨k, w⟩ := hd
      intro kid v h
      by_cases hk : k = kid
      · simp [storeKids, hk]
      · simp only [storeLookup, if_neg hk] at h
        simp only [storeKids, List.map_cons, List.mem_cons]
        exact Or.inr (ih kid v h)

/-- A found expired kid is bound in the store to an expired entry. -/
theorem findExpired_some (now : Int) : ∀ (store : KeyStore) (k : String),
    findExpired store now = some k → ∃ e, (k, e) ∈ store ∧ e.expiry < now := by
  intro store
  induction store with
  | nil => intro k h; simp [findExpired] at h
  | cons hd tl ih =>
      obtain ⟨k0, v0⟩ := hd
      intro k h
      by_cases hv : v0.expiry < now
      · simp only [findExpired, if_pos hv, Option.some.injEq] at h
        subst h
        exact ⟨v0, by simp, hv⟩
      · simp only [findExpired, if_neg hv] at h
        obtain ⟨e, he, hee⟩ := ih k h
        exact ⟨e, by simp [he], hee⟩

/-- Lookup `findExpired` comes back empty exactly when no stored key is expired. -/
theorem findExpired_eq_none (now : Int) : ∀ store : KeyStore,
    findExpired store now = none ↔ ∀ p ∈ store, ¬ p.2.expiry < now := by
  intro store
  induction store with
  | nil => simp [findExpired]
  | cons hd tl ih =>
      obtain ⟨k0, v0⟩ := hd
      by_cases hv : v0.expiry < now
      · simp only [findExpired, if_pos hv]
        constructor
        · intro h; exact absurd h (by simp)
        · intro h; exact absurd hv (h (k0, v0) (by simp))
      · simp only [findExpired, if_neg hv, ih, List.mem_cons]
        constructor
        · rintro h p (rfl | hp)
          · exact hv
          · exact h p hp
        · intro h p hp; exact h p (Or.inr hp)

/-! ## Lemmas about key selection on `/auth` -/

/-- The selected signing kid is always present in the post-selection store. -/
theorem pickSigningKey_kid_mem (store : KeyStore) (ep : Bool) (fresh : FreshMaterial)
    (freshKid : String) (now : Int) :
    (pickSigningKey store ep fresh freshKid now).1 ∈
      storeKids (pickSigningKey store ep fresh freshKid now).2 := by
  have hgen : ∀ b : Bool, (generate_key store fresh freshKid b now).1 ∈
      storeKids (generate_key store fresh freshKid b now).2 := by
    intro b
    simp only [generate_key]
    exact mem_storeKids_of_lookup _ _ _ (storeLookup_storeInsert_self store freshKid _)
  unfold pickSigningKey
  cases ep with
  | false => simpa using hgen false
  | true =>
      cases hfe : findExpired store now with
      | none => simpa [hfe] using hgen true
      | some k =>
          by_cases hk : k = ""
          · simpa [hfe, hk] using hgen true
          · obtain ⟨e, hmem, _⟩ := findExpired_some now store k hfe
            simp only [if_true, hfe, if_neg hk]
            exact List.mem_map.2 ⟨(k, e), hmem, rfl⟩

/-- When an expired key exists (and no stored kid is the empty string, as
holds for `uuid4` kids), the selection reuses it: the store is untouched
and the chosen kid is bound to an expired entry. -/
theorem pickSigningKey_reuses_expired (store : KeyStore) (fresh : FreshMaterial)
    (freshKid : String) (now : Int)
    (hne : ∀ q ∈ store, q.1 ≠ "")
    (hex : ∃ p ∈ store, p.2.expiry < now) :
    (pickSigningKey store true fresh freshKid now).2 = store ∧
    ∃ e, ((pickSigningKey store true fresh freshKid now).1, e) ∈ store ∧
         e.expiry < now := by
  cases hfe : findExpired store now with
  | none =>
      exfalso
      obtain ⟨p, hp, hlt⟩ := hex
      exact (findExpired_eq_none now store).1 hfe p hp hlt
  | some k =>
      obtain ⟨e, hmem, hee⟩ := findExpired_some now store k hfe
      have hk : k ≠ "" := hne (k, e) hmem
      unfold pickSigningKey
      simp only [if_true, hfe, if_neg hk]
      exact ⟨by trivial, e, hmem, hee⟩

/-- When no expired key exists, the expired path generates a fresh
already-expired key. -/
theorem pickSigningKey_generates_expired (store : KeyStore) (fresh : FreshMaterial)
    (freshKid : String) (now : Int)
    (hnone : ∀ p ∈ store, ¬ p.2.expiry < now) :
    (pickSigningKey store true fresh freshKid now).2 =
      storeInsert store freshKid
        ⟨fresh.publicN, fresh.publicE, fresh.privateD, now - 300⟩ ∧
    (pickSigningKey store true fresh freshKid now).1 = freshKid := by
  have hfe : findExpired store now = none := (findExpired_eq_none now store).2 hnone
  unfold pickSigningKey
  simp [hfe, generate_key]

/-- Without the expired parameter, a brand-new currently-valid key is
always generated. -/
theorem pickSigningKey_generates_valid (store : KeyStore) (fresh : FreshMaterial)
    (freshKid : String) (now : Int) :
    (pickSigningKey store false fresh freshKid now).2 =
      storeInsert store freshKid
        ⟨fresh.publicN, fresh.publicE, fresh.privateD, now + 3600⟩ ∧
    (pickSigningKey store false fresh freshKid now).1 = freshKid := by
  unfold pickSigningKey
  simp [generate_key]

/-! ## Claim theorems -/

/-- C1: for every store state and time `now`, the discovery operation
removes from the store every key whose `validUntil < now`, and the
returned key list contains exactly (the JWK renderings of) the keys with
`validUntil ≥ now`; after the request no expired key remains stored. -/
theorem c1_discovery_validity_window (store : KeyStore) (now : Int) :
    (∀ p : String × KeyEntry, p ∈ (jwks_endpoint store now).1 → ¬ p.2.expiry < now) ∧
    (∀ j : JWK, j ∈ (jwks_endpoint store now).2.2 ↔
      ∃ kid k, (kid, k) ∈ store ∧ now ≤ k.expiry ∧ j = encodeJWK kid k) := by
  constructor
  · intro p hp
    exact ((mem_purgeExpired now store p).1 (by simpa [jwks_endpoint] using hp)).2
  · intro j
    simp only [jwks_endpoint, List.mem_map]
    constructor
    · rintro ⟨p, hp, rfl⟩
      obtain ⟨hmem, hexp⟩ := (mem_purgeExpired now store p).1 hp
      exact ⟨p.1, p.2, hmem, by omega, rfl⟩
    · rintro ⟨kid, k, hmem, hle, rfl⟩
      exact ⟨(kid, k), (mem_purgeExpired now store (kid, k)).2
        ⟨hmem, show ¬ k.expiry < now by omega⟩, rfl⟩

/-- Witness for C1 at a concrete store: a currently-valid key is listed. -/
theorem c1_witness :
    encodeJWK "a" ⟨5, 3, 7, 100⟩ ∈ (jwks_endpoint [("a", ⟨5, 3, 7, 100⟩)] 20).2.2 :=
  ((c1_discovery_validity_window [("a", ⟨5, 3, 7, 100⟩)] 20).2
      (encodeJWK "a" ⟨5, 3, 7, 100⟩)).2
    ⟨"a", ⟨5, 3, 7, 100⟩, by simp, by decide, rfl⟩

/-- C5 counterexample: the claim's zero case fails. `base64url_encode(0)`
returns the empty string (`(0).to_bytes(0, 'big')` is empty), not the
encoding `"AA"` of a single zero byte. -/
theorem c5_counterexample :
    base64urlEncode 0 = "" ∧ String.mk (b64encode [0]) = "AA" ∧
    ("" : String) ≠ "AA" := by
  refine ⟨by decide, by decide, by decide⟩

/-- C5 (amended): for every nonnegative integer, the published encoding is
the unpadded URL-safe base64 of the big-endian minimal representation: no
`=` padding, only URL-safe alphabet characters, no leading zero byte for a
positive integer; zero yields the empty byte string and hence encodes as
the empty string. -/
theorem c5_encoding_shape (n : Nat) :
    '=' ∉ (base64urlEncode n).data ∧
    (∀ c ∈ (base64urlEncode n).data, (charToSextet c).isSome) ∧
    (0 < n → ∀ b, (intToBEBytes n).head? = some b → b ≠ 0) ∧
    base64urlEncode 0 = "" := by
  refine ⟨?_, ?_, ?_, by decide⟩
  · intro hc
    exact (base64urlEncode_chars n '=' hc).2 rfl
  · intro c hc
    exact (base64urlEncode_chars n c hc).1
  · intro hn b hb
    exact head_intToBEBytes_ne_zero n hn b hb

/-- Witness for C5 at `n = 256` (bytes `[1, 0]`, encoding `"AQA"`). -/
theorem c5_witness : (charToSextet 'Q').isSome ∧ (1 : Nat) ≠ 0 :=
  ⟨(c5_encoding_shape 256).2.1 'Q' (by decide),
   (c5_encoding_shape 256).2.2.1 (by decide) 1 (by decide)⟩

/-- C6: every key valid at `now` is published by discovery, and decoding the
published `n`/`e` fields recovers exactly the stored public modulus and
exponent; the encoded strings contain no padding characters. -/
theorem c6_published_roundtrip (store : KeyStore) (now : Int) (kid : String)
    (k : KeyEntry) (hmem : (kid, k) ∈ store) (hval : now ≤ k.expiry) :
    encodeJWK kid k ∈ (jwks_endpoint store now).2.2 ∧
    base64urlDecodeNat (encodeJWK kid k).n = some k.publicN ∧
    base64urlDecodeNat (encodeJWK kid k).e = some k.publicE ∧
    '=' ∉ (encodeJWK kid k).n.data ∧
    '=' ∉ (encodeJWK kid k).e.data := by
  refine ⟨?_, ?_, ?_, ?_, ?_⟩
  · simp only [jwks_endpoint, List.mem_map]
    exact ⟨(kid, k), (mem_purgeExpired now store (kid, k)).2
      ⟨hmem, show ¬ k.expiry < now by omega⟩, rfl⟩
  · exact base64urlDecodeNat_base64urlEncode k.publicN
  · exact base64urlDecodeNat_base64urlEncode k.publicE
  · intro hc
    exact (base64urlEncode_chars k.publicN '=' hc).2 rfl
  · intro hc
    exact (base64urlEncode_chars k.publicE '=' hc).2 rfl

/-- Witness for C6 at a concrete store with `n = 65537`, `e = 17`. -/
theorem c6_witness :
    encodeJWK "d" ⟨65537, 17, 9, 50⟩ ∈
      (jwks_endpoint [("d", ⟨65537, 17, 9, 50⟩)] 10).2.2 ∧
    base64urlDecodeNat (encodeJWK "d" ⟨65537, 17, 9, 50⟩).n = some 65537 ∧
    base64urlDecodeNat (encodeJWK "d" ⟨65537, 17, 9, 50⟩).e = some 17 ∧
    '=' ∉ (encodeJWK "d" ⟨65537, 17, 9, 50⟩).n.data ∧
    '=' ∉ (encodeJWK "d" ⟨65537, 17, 9, 50⟩).e.data :=
  c6_published_roundtrip [("d", ⟨65537, 17, 9, 50⟩)] 10 "d" ⟨65537, 17, 9, 50⟩
    (by simp) (by decide)

/-- C9 counterexample: a key whose `validUntil` equals `now` exactly IS
listed by discovery (the purge uses the strict test `expiry < now`), so the
claim that it must not appear fails at this concrete input. -/
theorem c9_counterexample :
    encodeJWK "b" ⟨5, 3, 7, 100⟩ ∈ (jwks_endpoint [("b", ⟨5, 3, 7, 100⟩)] 100).2.2 := by
  decide

/-- C9 (amended): a key whose `validUntil` equals `now` exactly is kept by
the purge and does appear in the returned key list: the boundary instant is
treated as still valid (`validUntil ≥ now`), not as expired. -/
theorem c9_boundary_key_listed (store : KeyStore) (now : Int) (kid : String)
    (k : KeyEntry) (hmem : (kid, k) ∈ store) (hexp : k.expiry = now) :
    (kid, k) ∈ (jwks_endpoint store now).1 ∧
    encodeJWK kid k ∈ (jwks_endpoint store now).2.2 := by
  have hkeep : (kid, k) ∈ purgeExpired store now :=
    (mem_purgeExpired now store (kid, k)).2 ⟨hmem, show ¬ k.expiry < now by omega⟩
  constructor
  · simpa [jwks_endpoint] using hkeep
  · simp only [jwks_endpoint, List.mem_map]
    exact ⟨(kid, k), hkeep, rfl⟩

/-- Witness for the amended C9 at a concrete boundary store. -/
theorem c9_witness :
    ("c", (⟨2, 3, 4, 7⟩ : KeyEntry)) ∈ (jwks_endpoint [("c", ⟨2, 3, 4, 7⟩)] 7).1 ∧
    encodeJWK "c" ⟨2, 3, 4, 7⟩ ∈ (jwks_endpoint [("c", ⟨2, 3, 4, 7⟩)] 7).2.2 :=
  c9_boundary_key_listed [("c", ⟨2, 3, 4, 7⟩)] 7 "c" ⟨2, 3, 4, 7⟩ (by simp) rfl

/-- C10: when no stored key is still valid (in particular on the empty
store), discovery succeeds with status 200 and an empty `keys` array. -/
theorem c10_empty_keyset (store : KeyStore) (now : Int)
    (h : ∀ p ∈ store, p.2.expiry < now) :
    jwks_endpoint store now = ([], 200, []) := by
  have hp := purgeExpired_eq_nil now store h
  simp [jwks_endpoint, hp]

/-- Witness for C10: a store holding only an expired key serves `{keys: []}`
with status 200. -/
theorem c10_witness : jwks_endpoint [("a", ⟨5, 3, 7, 0⟩)] 1 = ([], 200, []) :=
  c10_empty_keyset [("a", ⟨5, 3, 7, 0⟩)] 1 (by decide)

/-- C2 counterexample: `generate_key` inserts by plain dict assignment with
no duplicate check, so inserting under an already-stored kid silently
replaces the old entry: no DuplicateID error exists, and the stored
material changes. -/
theorem c2_counterexample :
    storeLookup (generate_key [("k", ⟨5, 3, 7, 50⟩)] ⟨11, 13, 17⟩ "k" false 0).2 "k"
      = some ⟨11, 13, 17, 3600⟩ ∧
    (⟨11, 13, 17, 3600⟩ : KeyEntry) ≠ ⟨5, 3, 7, 50⟩ := by
  refine ⟨by decide, by decide⟩

/-- C2 (amended): when a key with the same id is already stored, the
insertion performed by `generate_key` silently overwrites the existing
entry with the new key material and returns the kid normally; no
DuplicateID error is raised and the old material is lost. -/
theorem c2_duplicate_insert_overwrites (store : KeyStore) (fresh : FreshMaterial)
    (kid : String) (expired : Bool) (now : Int)
    (_hdup : (storeLookup store kid).isSome) :
    (generate_key store fresh kid expired now).1 = kid ∧
    storeLookup (generate_key store fresh kid expired now).2 kid =
      some ⟨fresh.publicN, fresh.publicE, fresh.privateD,
            if expired then now - 300 else now + 3600⟩ := by
  exact ⟨rfl, storeLookup_storeInsert_self store kid _⟩

/-- Witness for the amended C2 at a store already holding kid `"m"`. -/
theorem c2_witness :
    (generate_key [("m", ⟨1, 2, 3, 9⟩)] ⟨4, 5, 6⟩ "m" true 100).1 = "m" ∧
    storeLookup (generate_key [("m", ⟨1, 2, 3, 9⟩)] ⟨4, 5, 6⟩ "m" true 100).2 "m" =
      some ⟨4, 5, 6, if true then (100 : Int) - 300 else 100 + 3600⟩ :=
  c2_duplicate_insert_overwrites [("m", ⟨1, 2, 3, 9⟩)] ⟨4, 5, 6⟩ "m" true 100
    (by decide)

/-- C3: the issuance selection policy. With the `expired` parameter present:
if the store holds an expired key (kids being nonempty `uuid4` strings),
the request signs with one of them and creates nothing; when no expired key
exists it creates a fresh key with expiry in the past. Without the
parameter it always creates a brand-new currently-valid key. -/
theorem c3_selection_policy (store : KeyStore) (ep : Bool) (fresh : FreshMaterial)
    (freshKid : String) (now : Int) :
    (ep = true → (∀ q ∈ store, q.1 ≠ "") → (∃ p ∈ store, p.2.expiry < now) →
      (auth_endpoint store ep fresh freshKid now).1 = store ∧
      ∃ e, ((auth_endpoint store ep fresh freshKid now).2.2.headerKid, e) ∈ store ∧
           e.expiry < now) ∧
    (ep = true → (∀ p ∈ store, ¬ p.2.expiry < now) →
      (auth_endpoint store ep fresh freshKid now).1 =
        storeInsert store freshKid
          ⟨fresh.publicN, fresh.publicE, fresh.privateD, now - 300⟩ ∧
      (auth_endpoint store ep fresh freshKid now).2.2.headerKid = freshKid) ∧
    (ep = false →
      (auth_endpoint store ep fresh freshKid now).1 =
        storeInsert store freshKid
          ⟨fresh.publicN, fresh.publicE, fresh.privateD, now + 3600⟩ ∧
      (auth_endpoint store ep fresh freshKid now).2.2.headerKid = freshKid) := by
  refine ⟨?_, ?_, ?_⟩
  · rintro rfl hne hex
    exact pickSigningKey_reuses_expired store fresh freshKid now hne hex
  · rintro rfl hnone
    exact pickSigningKey_generates_expired store fresh freshKid now hnone
  · rintro rfl
    exact pickSigningKey_generates_valid store fresh freshKid now

/-- Witness for C3: a store holding one expired key, `expired` requested. -/
theorem c3_witness :
    (auth_endpoint [("x", ⟨5, 3, 7, 10⟩)] true ⟨1, 1, 1⟩ "y" 50).1 =
      [("x", ⟨5, 3, 7, 10⟩)] ∧
    ∃ e : KeyEntry,
      ((auth_endpoint [("x", ⟨5, 3, 7, 10⟩)] true ⟨1, 1, 1⟩ "y" 50).2.2.headerKid, e)
        ∈ [("x", ⟨5, 3, 7, 10⟩)] ∧ e.expiry < 50 :=
  (c3_selection_policy [("x", ⟨5, 3, 7, 10⟩)] true ⟨1, 1, 1⟩ "y" 50).1 rfl
    (by decide)
    (⟨("x", ⟨5, 3, 7, 10⟩), by simp, by decide⟩ :
      ∃ p ∈ [("x", (⟨5, 3, 7, 10⟩ : KeyEntry))], p.2.expiry < 50)

/-- C4: with the expired flag the issued token's `exp` claim is `now - 300`,
strictly before the issuance instant; without it `exp = now + 300`, strictly
after `iat = now`, and `exp - iat` is exactly the 5-minute lifetime. -/
theorem c4_token_expiry (store : KeyStore) (ep : Bool) (fresh : FreshMaterial)
    (freshKid : String) (now : Int) :
    (ep = true →
      payloadInt (auth_endpoint store ep fresh freshKid now).2.2 "exp" = some (now - 300) ∧
      payloadInt (auth_endpoint store ep fresh freshKid now).2.2 "iat" = some now ∧
      now - 300 < now) ∧
    (ep = false →
      payloadInt (auth_endpoint store ep fresh freshKid now).2.2 "exp" = some (now + 300) ∧
      payloadInt (auth_endpoint store ep fresh freshKid now).2.2 "iat" = some now ∧
      now < now + 300 ∧ (now + 300) - now = 300) := by
  constructor
  · rintro rfl
    refine ⟨?_, ?_, by omega⟩ <;> simp [auth_endpoint, payloadInt, List.lookup]
  · rintro rfl
    refine ⟨?_, ?_, by omega, by omega⟩ <;> simp [auth_endpoint, payloadInt, List.lookup]

/-- Witness for C4 with the expired flag at `now = 1000`. -/
theorem c4_witness :
    payloadInt (auth_endpoint [] true ⟨1, 1, 1⟩ "z" 1000).2.2 "exp" =
      some ((1000 : Int) - 300) ∧
    payloadInt (auth_endpoint [] true ⟨1, 1, 1⟩ "z" 1000).2.2 "iat" = some 1000 ∧
    (1000 : Int) - 300 < 1000 :=
  (c4_token_expiry [] true ⟨1, 1, 1⟩ "z" 1000).1 rfl

/-- C7: every issued token carries exactly the claims `sub`, `iat`, `exp`
(in that construction order and no others), with `sub = "example_user"`,
status 201, and a header kid that is present in the store at the moment of
issuance (the post-request store, which includes a freshly inserted key). -/
theorem c7_token_structure (store : KeyStore) (ep : Bool) (fresh : FreshMaterial)
    (freshKid : String) (now : Int) :
    (auth_endpoint store ep fresh freshKid now).2.2.payload.map Prod.fst =
      ["sub", "iat", "exp"] ∧
    payloadStr (auth_endpoint store ep fresh freshKid now).2.2 "sub" =
      some "example_user" ∧
    (auth_endpoint store ep fresh freshKid now).2.1 = 201 ∧
    (auth_endpoint store ep fresh freshKid now).2.2.headerKid ∈
      storeKids (auth_endpoint store ep fresh freshKid now).1 := by
  refine ⟨rfl, ?_, rfl, ?_⟩
  · simp [auth_endpoint, payloadStr, List.lookup]
  · exact pickSigningKey_kid_mem store ep fresh freshKid now

/-- C8 counterexample: two methods break the claim. `HEAD` on the discovery
path is served through the `GET` route (Flask adds `HEAD` to a route
declaring `GET` automatically; `jwks_invalid_methods` does not list
`HEAD`), and `OPTIONS` on the issuance path gets Flask's automatic 200
response; both are non-`GET`/non-`POST` methods returning 200, not 405. -/
theorem c8_counterexample :
    (Method.HEAD ≠ Method.GET ∧
      (dispatchDiscovery [] 0 Method.HEAD).2.1 = 200 ∧
      (dispatchDiscovery [] 0 Method.HEAD).2.1 ≠ 405) ∧
    (Method.OPTIONS ≠ Method.POST ∧
      (dispatchAuth [] false ⟨1, 1, 1⟩ "w" 0 Method.OPTIONS).2.1 = 200 ∧
      (dispatchAuth [] false ⟨1, 1, 1⟩ "w" 0 Method.OPTIONS).2.1 ≠ 405) := by
  refine ⟨⟨by decide, by decide, by decide⟩, ⟨by decide, by decide, by decide⟩⟩

/-- C8 (amended): on the discovery path every method other than `GET`, the
automatically served `HEAD` and the automatically answered `OPTIONS`
returns 405 with the `{"error": "Method Not Allowed"}` envelope and leaves
the store unchanged; on the issuance path every method other than `POST`
and `OPTIONS` does; `GET` discovery returns 200, `POST` issuance returns
201, and `OPTIONS` returns Flask's automatic 200 on both paths. -/
theorem c8_method_restriction (store : KeyStore) (now : Int) (ep : Bool)
    (fresh : FreshMaterial) (freshKid : String) (m : Method) :
    (m ≠ Method.GET → m ≠ Method.HEAD → m ≠ Method.OPTIONS →
      (dispatchDiscovery store now m).2.1 = 405 ∧
      (dispatchDiscovery store now m).2.2 = RespBody.err "Method Not Allowed" ∧
      (dispatchDiscovery store now m).1 = store) ∧
    (m ≠ Method.POST → m ≠ Method.OPTIONS →
      (dispatchAuth store ep fresh freshKid now m).2.1 = 405 ∧
      (dispatchAuth store ep fresh freshKid now m).2.2 =
        RespBody.err "Method Not Allowed" ∧
      (dispatchAuth store ep fresh freshKid now m).1 = store) ∧
    (dispatchDiscovery store now Method.GET).2.1 = 200 ∧
    (dispatchAuth store ep fresh freshKid now Method.POST).2.1 = 201 ∧
    (dispatchDiscovery store now Method.OPTIONS).2.1 = 200 ∧
    (dispatchAuth store ep fresh freshKid now Method.OPTIONS).2.1 = 200 := by
  refine ⟨?_, ?_, rfl, rfl, rfl, rfl⟩
  · intro hg hh ho
    cases m <;> first
      | exact absurd rfl hg
      | exact absurd rfl hh
      | exact absurd rfl ho
      | exact ⟨rfl, rfl, rfl⟩
  · intro hp ho
    cases m <;> first
      | exact absurd rfl hp
      | exact absurd rfl ho
      | exact ⟨rfl, rfl, rfl⟩

/-- Witness for the amended C8: `PUT` on both paths at a concrete store. -/
theorem c8_witness :
    ((dispatchDiscovery [] 0 Method.PUT).2.1 = 405 ∧
      (dispatchDiscovery [] 0 Method.PUT).2.2 = RespBody.err "Method Not Allowed" ∧
      (dispatchDiscovery [] 0 Method.PUT).1 = []) ∧
    ((dispatchAuth [] false ⟨1, 1, 1⟩ "w" 0 Method.PUT).2.1 = 405 ∧
      (dispatchAuth [] false ⟨1, 1, 1⟩ "w" 0 Method.PUT).2.2 =
        RespBody.err "Method Not Allowed" ∧
      (dispatchAuth [] false ⟨1, 1, 1⟩ "w" 0 Method.PUT).1 = []) :=
  ⟨(c8_method_restriction [] 0 false ⟨1, 1, 1⟩ "w" Method.PUT).1
      (by decide) (by decide) (by decide),
   (c8_method_restriction [] 0 false ⟨1, 1, 1⟩ "w" Method.PUT).2.1
      (by decide) (by decide)⟩

end JWKSServer
